import Mathlib

/-
Verification development for the sentiment backtesting engine.

The Python sources are shallowly embedded over exact rationals:
  * pandas Series of prices / returns become `List ℚ`;
  * DataFrames keyed by date or ticker become association lists with a
    first-match lookup, mirroring pandas label lookup;
  * floats become exact rationals; the IEEE-754 degeneracies that the
    metric functions can actually produce (NaN from 0/0 or from the
    sample standard deviation of fewer than two points, signed infinity
    from x/0 with x ≠ 0) are made explicit through the `FloatRep` type;
  * the square root applied by the annualisation factor is irrational,
    so a finite ratio result `sqrt ppy * (m / sqrt v)` is represented
    symbolically by the constructor `FloatRep.ann ppy m v` with `v ≠ 0`;
  * exceptions raised inside the engine loop (pandas KeyError on a
    missing label, KeyError on a missing column of an empty frame)
    become `Except` errors.

Division of rationals in Lean is total with `x / 0 = 0`; every place
where the Python code can actually divide by zero is branched on
explicitly, so this convention is never silently relied upon.
-/

set_option autoImplicit false

/-- Association-list lookup, first match wins: the model of label lookup
in a pandas frame (`frame.loc[key]`) and of `key in dict`. -/
def alookup {α β : Type} [DecidableEq α] (k : α) : List (α × β) → Option β
  | [] => none
  | kv :: rest => if kv.1 = k then some kv.2 else alookup k rest

/-! ## Metrics: src/backend/app/core/metrics/returns.py -/

/-- Embedding of `calculate_returns` (returns.py lines 7-17):
`prices.pct_change().fillna(0)`.  The first element has no prior period,
pandas yields NaN there and `fillna(0)` turns it into 0; every later
element is `(cur - prev) / prev`. -/
def calculate_returns (prices : List ℚ) : List ℚ :=
  match prices with
  | [] => []
  | p :: ps => 0 :: List.zipWith (fun prev cur => (cur - prev) / prev) (p :: ps) ps

/-- Running product with accumulator: the model of pandas `cumprod`. -/
def cumprodAux (acc : ℚ) : List ℚ → List ℚ
  | [] => []
  | x :: xs => (acc * x) :: cumprodAux (acc * x) xs

/-- Embedding of pandas `(series).cumprod()`. -/
def cumprod (l : List ℚ) : List ℚ := cumprodAux 1 l

/-- Embedding of `calculate_cumulative_returns` (returns.py lines 19-29):
`(1 + returns).cumprod() - 1`. -/
def calculate_cumulative_returns (returns : List ℚ) : List ℚ :=
  (cumprod (returns.map (fun r => 1 + r))).map (fun c => c - 1)

/-! ## Metrics: src/backend/app/core/metrics/risk.py -/

/-- Mean of a series, `series.mean()`.  Only ever used on series the code
has already checked to be non-empty. -/
def seriesMean (l : List ℚ) : ℚ := l.sum / l.length

/-- Sample variance with the pandas default `ddof=1`, i.e. the square of
`series.std()`.  Only meaningful for two or more points; the callers
below branch on the length before using it. -/
def seriesVar (l : List ℚ) : ℚ :=
  (l.map (fun x => (x - seriesMean l) ^ 2)).sum / ((l.length : ℚ) - 1)

/-- Excess returns `returns - risk_free_rate / periods_per_year`, the
series both risk ratios are computed from. -/
def excessReturns (returns : List ℚ) (risk_free_rate periods_per_year : ℚ) : List ℚ :=
  returns.map (fun r => r - risk_free_rate / periods_per_year)

/-- Model of the IEEE-754 double produced by the risk-ratio functions.
`val x` is the exact finite value `x`; `nan` is produced by `0/0` and by
the sample standard deviation of fewer than two points; `posInf` and
`negInf` come from `x/0` with `x` positive resp. negative (and `posInf`
also from the deliberate `np.inf` in the Sortino no-downside branch);
`ann ppy m v` stands for the finite irrational value
`sqrt ppy * (m / sqrt v)` with `v ≠ 0`, kept symbolic because the square
root has no rational representation. -/
inductive FloatRep where
  | val (x : ℚ)
  | posInf
  | negInf
  | nan
  | ann (ppy m v : ℚ)
  deriving DecidableEq, Repr

/-- Embedding of `calculate_sharpe_ratio` (risk.py lines 7-27):
`0.0` on the empty series, otherwise
`np.sqrt(ppy) * (excess.mean() / excess.std())` with `excess.std()` the
sample standard deviation (`ddof=1`).  The std of a single point is NaN;
when the variance is zero the division `mean / 0.0` follows IEEE
semantics (`+inf`, `-inf`, or NaN by the sign of the mean). -/
def calculate_sharpe_ratioFR (returns : List ℚ)
    (risk_free_rate periods_per_year : ℚ) : FloatRep :=
  if returns = [] then .val 0
  else
    let excess := excessReturns returns risk_free_rate periods_per_year
    if excess.length < 2 then .nan
    else if seriesVar excess = 0 then
      if 0 < seriesMean excess then .posInf
      else if seriesMean excess < 0 then .negInf
      else .nan
    else .ann periods_per_year (seriesMean excess) (seriesVar excess)

/-- Embedding of `calculate_sortino_ratio` (risk.py lines 29-54):
`0.0` on the empty series; with no negative excess return, `np.inf` when
the mean excess is positive and `0.0` otherwise; else
`np.sqrt(ppy) * (excess.mean() / downside.std())` where `downside` keeps
only the negative excess returns.  As for Sharpe, the sample std of a
single downside point is NaN and a zero downside variance makes the
division follow IEEE semantics. -/
def calculate_sortino_ratioFR (returns : List ℚ)
    (risk_free_rate periods_per_year : ℚ) : FloatRep :=
  if returns = [] then .val 0
  else
    let excess := excessReturns returns risk_free_rate periods_per_year
    let downside := excess.filter (fun x => x < 0)
    if downside = [] then
      if 0 < seriesMean excess then .posInf else .val 0
    else if downside.length < 2 then .nan
    else if seriesVar downside = 0 then
      if 0 < seriesMean excess then .posInf
      else if seriesMean excess < 0 then .negInf
      else .nan
    else .ann periods_per_year (seriesMean excess) (seriesVar downside)

/-- Running maximum with accumulator, the tail of pandas
`series.expanding().max()`. -/
def runningMaxAux (acc : ℚ) : List ℚ → List ℚ
  | [] => []
  | x :: xs => max acc x :: runningMaxAux (max acc x) xs

/-- Embedding of pandas `series.expanding().max()`: element `i` is the
maximum of the first `i + 1` elements. -/
def runningMax : List ℚ → List ℚ
  | [] => []
  | x :: xs => x :: runningMaxAux x xs

/-- Minimum of a series, `series.min()`.  Only ever used on a non-empty
series (`calculate_max_drawdown` returns early on the empty one). -/
def listMin : List ℚ → ℚ
  | [] => 0
  | x :: xs => xs.foldl min x

/-- Embedding of `calculate_max_drawdown` (risk.py lines 56-73):
`0.0` on the empty series, otherwise with
`cumulative = (1 + returns).cumprod()`,
`rolling_max = cumulative.expanding().max()`,
`drawdowns = cumulative / rolling_max - 1`, the result is
`abs(drawdowns.min())`. -/
def calculate_max_drawdown (returns : List ℚ) : ℚ :=
  if returns = [] then 0
  else
    let cumulative := cumprod (returns.map (fun r => 1 + r))
    let rolling_max := runningMax cumulative
    let drawdowns := List.zipWith (fun c m => c / m - 1) cumulative rolling_max
    |listMin drawdowns|

/-! ## Portfolio: src/backend/app/core/backtest/portfolio.py -/

/-- Kind of a trade record, the `'type'` field of the trade dict. -/
inductive TradeType where
  | entry
  | exit
  deriving DecidableEq, Repr

/-- Trade record appended to `Portfolio.trades`.  For an entry trade
`price` is the `entry_price` field, for an exit trade the `exit_price`
field; `metadata` carries the sentiment label the engine attaches. -/
structure Trade where
  ticker : String
  quantity : ℚ
  price : ℚ
  date : ℕ
  ttype : TradeType
  metadata : Option String
  deriving DecidableEq, Repr

/-- Snapshot dict appended to `Portfolio.portfolio_values` by
`update_portfolio_value`. -/
structure Snapshot where
  date : ℕ
  cash : ℚ
  positions : ℚ
  total : ℚ
  deriving DecidableEq, Repr

/-- State of `Portfolio` (portfolio.py lines 10-26): dates are modelled
as naturals, the `positions` dict as an insertion-ordered association
list. -/
structure Portfolio where
  initial_capital : ℚ
  current_capital : ℚ
  unlimited_capital : Bool
  positions : List (String × ℚ)
  trades : List Trade
  portfolio_values : List Snapshot
  deriving DecidableEq, Repr

/-- Construction of a fresh `Portfolio(initial_capital, unlimited_capital)`. -/
def Portfolio.make (initial_capital : ℚ) (unlimited_capital : Bool) : Portfolio :=
  ⟨initial_capital, initial_capital, unlimited_capital, [], [], []⟩

/-- Model of `self.positions[ticker] += quantity` with the preceding
`if ticker not in self.positions: self.positions[ticker] = 0`: update
the existing entry in place, or append a fresh one (Python dicts keep
insertion order). -/
def addPosition (pos : List (String × ℚ)) (ticker : String) (q : ℚ) :
    List (String × ℚ) :=
  if (alookup ticker pos).isSome then
    pos.map (fun kv => if kv.1 = ticker then (kv.1, kv.2 + q) else kv)
  else pos ++ [(ticker, q)]

/-- Embedding of `Portfolio.enter_position` (portfolio.py lines 28-72):
returns the Python boolean result together with the portfolio after the
call.  When capital is limited and `quantity * price` exceeds
`current_capital` the call returns `False` having mutated nothing;
otherwise it appends an entry trade, increments the position, debits
cash in limited mode only, and returns `True`. -/
def enter_position (p : Portfolio) (ticker : String) (quantity price : ℚ)
    (date : ℕ) (metadata : Option String) : Bool × Portfolio :=
  let cost := quantity * price
  if p.unlimited_capital = false ∧ p.current_capital < cost then
    (false, p)
  else
    (true,
      { p with
        trades := p.trades ++ [⟨ticker, quantity, price, date, .entry, metadata⟩]
        positions := addPosition p.positions ticker quantity
        current_capital :=
          if p.unlimited_capital then p.current_capital
          else p.current_capital - cost })

/-- Embedding of `Portfolio.exit_position` (portfolio.py lines 74-117):
rejects unless the position holds at least `quantity` shares, otherwise
appends an exit trade with negated quantity, decrements the holding
(dropping the ticker at zero) and credits cash in limited mode. -/
def exit_position (p : Portfolio) (ticker : String) (quantity price : ℚ)
    (date : ℕ) (metadata : Option String) : Bool × Portfolio :=
  match alookup ticker p.positions with
  | none => (false, p)
  | some held =>
    if held < quantity then (false, p)
    else
      let updated := p.positions.map
        (fun kv => if kv.1 = ticker then (kv.1, kv.2 - quantity) else kv)
      (true,
        { p with
          trades := p.trades ++ [⟨ticker, -quantity, price, date, .exit, metadata⟩]
          positions := updated.filter (fun kv => ¬(kv.1 = ticker ∧ kv.2 = 0))
          current_capital :=
            if p.unlimited_capital then p.current_capital
            else p.current_capital + quantity * price })

/-- Market value of the held positions under the supplied prices dict:
positions whose ticker has no supplied price contribute nothing
(portfolio.py lines 133-138). -/
def positionValue (positions : List (String × ℚ)) (prices : List (String × ℚ)) : ℚ :=
  (positions.map (fun kv =>
    match alookup kv.1 prices with
    | some pr => kv.2 * pr
    | none => 0)).sum

/-- Snapshot dict built by `Portfolio.update_portfolio_value`
(portfolio.py lines 140-156): in unlimited-capital mode the recorded
cash is `0` and the total is the position value alone, otherwise cash is
`current_capital` and the total is cash plus position value. -/
def mkSnapshot (p : Portfolio) (date : ℕ) (prices : List (String × ℚ)) : Snapshot :=
  let pv := positionValue p.positions prices
  { date := date
    cash := if p.unlimited_capital then 0 else p.current_capital
    positions := pv
    total := if p.unlimited_capital then pv else p.current_capital + pv }

/-- Embedding of `Portfolio.update_portfolio_value` (portfolio.py lines
119-156): appends the snapshot for `date` to `portfolio_values`. -/
def update_portfolio_value (p : Portfolio) (date : ℕ)
    (prices : List (String × ℚ)) : Portfolio :=
  { p with portfolio_values := p.portfolio_values ++ [mkSnapshot p date prices] }

/-- Embedding of `Portfolio.get_portfolio_history` (portfolio.py lines
158-165): the frame built from the recorded snapshots. -/
def get_portfolio_history (p : Portfolio) : List Snapshot := p.portfolio_values

/-! ## Strategy: src/backend/app/core/strategy/sentiment.py -/

/-- State of `EarningsSentimentStrategy` (sentiment.py lines 10-32)
together with the `current_capital` field inherited from
`BaseStrategy`; `percentage_allocation = none` models the Python
`None`. -/
structure EarningsSentimentStrategy where
  position_size : ℚ
  percentage_allocation : Option ℚ
  unlimited_capital : Bool
  initial_capital : ℚ
  current_capital : ℚ
  deriving DecidableEq, Repr

/-- Embedding of `EarningsSentimentStrategy.generate_signals`
(sentiment.py lines 34-51): one row per sentiment row, signal `1`
exactly when the label is `"optimistic"`. -/
def generate_signals (sentimentData : List (ℕ × String)) : List (ℕ × ℤ) :=
  sentimentData.map (fun ds => (ds.1, if ds.2 = "optimistic" then 1 else 0))

/-- Embedding of `EarningsSentimentStrategy.calculate_position_size`
(sentiment.py lines 53-78): the fixed `position_size` in
unlimited-capital mode; otherwise the allocated amount
(`current_capital * percentage_allocation`, falling back to
`position_size` when the percentage is `None`) capped at
`current_capital`. -/
def calculate_position_size (s : EarningsSentimentStrategy) : ℚ :=
  if s.unlimited_capital then s.position_size
  else
    let allocated :=
      match s.percentage_allocation with
      | some pct => s.current_capital * pct
      | none => s.position_size
    min allocated s.current_capital

/-! ## Engine: src/backend/app/core/backtest/engine.py -/

/-- Exceptions that can escape `BacktestEngine.run`.  `priceKeyError d`
is the pandas `KeyError` raised by `price_data.loc[d, 'Close']` when `d`
is not in the price index (engine.py line 126); `emptyHistory` is the
`KeyError` raised by `portfolio_history['total']` when the snapshot list
is empty, because `pd.DataFrame([])` has no columns (engine.py line
136). -/
inductive EngineError where
  | priceKeyError (date : ℕ)
  | emptyHistory
  deriving DecidableEq, Repr

/-- Mutable state threaded through the engine loop: the portfolio and
the strategy (whose `current_capital` the engine overwrites before
sizing each buy). -/
structure EngineState where
  portfolio : Portfolio
  strategy : EarningsSentimentStrategy
  deriving DecidableEq, Repr

/-- Insertion of a signal row into a date-sorted signal list. -/
def insertSorted (x : ℕ × ℤ) : List (ℕ × ℤ) → List (ℕ × ℤ)
  | [] => [x]
  | y :: ys => if x.1 ≤ y.1 then x :: y :: ys else y :: insertSorted x ys

/-- Model of `signals.sort_index(ascending=True)` (engine.py line 87). -/
def sortByDate : List (ℕ × ℤ) → List (ℕ × ℤ)
  | [] => []
  | x :: xs => insertSorted x (sortByDate xs)

/-- Embedding of one iteration of the engine loop (engine.py lines
92-131) for the signal row `sig = (date, signal)`.  On a buy signal
whose date is missing from the price index the iteration is a `continue`
(no trade, no snapshot).  On a buy signal with a price, the strategy's
capital is synchronised with the portfolio, the position size is
converted to shares at the close, `enter_position` is called (its
boolean result is ignored, as in the source) and the portfolio is
revalued.  On a non-buy signal the source proceeds straight to
`update_portfolio_value` whose argument `price_data.loc[date, 'Close']`
raises `KeyError` when the date is missing: the iteration fails. -/
def processSignal (priceData : List (ℕ × ℚ)) (ticker : String)
    (sentimentData : List (ℕ × String)) (st : EngineState) (sig : ℕ × ℤ) :
    Except EngineError EngineState :=
  if sig.2 = 1 then
    match alookup sig.1 priceData with
    | none => .ok st
    | some close =>
      let strat := { st.strategy with current_capital := st.portfolio.current_capital }
      let size := calculate_position_size strat
      let quantity := size / close
      let p1 := (enter_position st.portfolio ticker quantity close sig.1
        (alookup sig.1 sentimentData)).2
      .ok ⟨update_portfolio_value p1 sig.1 [(ticker, close)], strat⟩
  else
    match alookup sig.1 priceData with
    | none => .error (.priceKeyError sig.1)
    | some close =>
      .ok ⟨update_portfolio_value st.portfolio sig.1 [(ticker, close)], st.strategy⟩

/-- Chronological fold of `processSignal` over the sorted signal rows,
stopping at the first uncaught exception (the engine's `except` block
logs and re-raises, engine.py lines 129-131). -/
def runLoop (priceData : List (ℕ × ℚ)) (ticker : String)
    (sentimentData : List (ℕ × String)) :
    EngineState → List (ℕ × ℤ) → Except EngineError EngineState
  | st, [] => .ok st
  | st, sig :: rest =>
    match processSignal priceData ticker sentimentData st sig with
    | .error e => .error e
    | .ok st' => runLoop priceData ticker sentimentData st' rest

/-- Cost basis summed over every entry trade,
`sum(abs(t['quantity']) * t['entry_price'] for t in trades if
t['type'] == 'entry')` (engine.py lines 141-145). -/
def totalInvestment (trades : List Trade) : ℚ :=
  ((trades.filter (fun t => t.ttype = .entry)).map
    (fun t => |t.quantity| * t.price)).sum

/-- Total-return policy of the engine (engine.py lines 138-163): in
unlimited-capital mode, return on invested capital
(`final / total_investment - 1` when the investment is positive, else
`0`); otherwise `final / initial_capital - 1`. -/
def computeTotalReturn (unlimited : Bool) (trades : List Trade)
    (initial_capital final_total : ℚ) : ℚ :=
  if unlimited then
    if 0 < totalInvestment trades then final_total / totalInvestment trades - 1
    else 0
  else final_total / initial_capital - 1

/-- Result dictionary assembled by `BacktestEngine.run` (engine.py lines
188-204), restricted to the numerically meaningful fields. -/
structure BacktestResults where
  initial_capital : ℚ
  final_capital : ℚ
  total_return : ℚ
  sharpe : FloatRep
  sortino : FloatRep
  max_drawdown : ℚ
  trades : List Trade
  equity : List (ℕ × ℚ)
  deriving DecidableEq, Repr

/-- Embedding of `BacktestEngine.run` (engine.py lines 47-218) driven by
`EarningsSentimentStrategy`: generate signals, sort them by date, fold
the loop, then derive the metrics from the snapshot history.  The
`priceData` association list models the price frame (`ticker` is its
index name), `sentimentData` the sentiment frame.  A `KeyError` inside
the loop or on the `'total'` column of an empty history frame aborts the
run with an error instead of a result. -/
def runEngine (strat : EarningsSentimentStrategy) (initial_capital : ℚ)
    (priceData : List (ℕ × ℚ)) (ticker : String)
    (sentimentData : List (ℕ × String)) : Except EngineError BacktestResults :=
  let signals := sortByDate (generate_signals sentimentData)
  let init : EngineState :=
    ⟨Portfolio.make initial_capital strat.unlimited_capital, strat⟩
  match runLoop priceData ticker sentimentData init signals with
  | .error e => .error e
  | .ok st =>
    let history := get_portfolio_history st.portfolio
    if history = [] then .error .emptyHistory
    else
      let totals := history.map (fun s => s.total)
      let returns := calculate_returns totals
      let final := totals.getLast?.getD 0
      .ok
        { initial_capital := st.portfolio.initial_capital
          final_capital := final
          total_return := computeTotalReturn strat.unlimited_capital
            st.portfolio.trades st.portfolio.initial_capital final
          sharpe := calculate_sharpe_ratioFR returns (1/50) 252
          sortino := calculate_sortino_ratioFR returns (1/50) 252
          max_drawdown := calculate_max_drawdown returns
          trades := st.portfolio.trades
          equity := history.map (fun s => (s.date, s.total)) }

/-! ## Helper lemmas -/

/-- Arguments of one `enter_position` call, for reasoning about call
sequences. -/
structure EnterCall where
  ticker : String
  quantity : ℚ
  price : ℚ
  date : ℕ
  metadata : Option String
  deriving DecidableEq, Repr

/-- Sequential execution of a list of `enter_position` calls, keeping
the resulting portfolio of each call (the boolean results are
discarded, as the engine discards them). -/
def runEnters (p : Portfolio) (calls : List EnterCall) : Portfolio :=
  calls.foldl
    (fun acc c => (enter_position acc c.ticker c.quantity c.price c.date c.metadata).2) p

lemma runEnters_nil (p : Portfolio) : runEnters p [] = p := rfl

lemma runEnters_cons (p : Portfolio) (c : EnterCall) (cs : List EnterCall) :
    runEnters p (c :: cs)
      = runEnters (enter_position p c.ticker c.quantity c.price c.date c.metadata).2 cs :=
  rfl

lemma enter_position_unlimited (p : Portfolio) (t : String) (q pr : ℚ)
    (d : ℕ) (m : Option String) :
    (enter_position p t q pr d m).2.unlimited_capital = p.unlimited_capital := by
  simp only [enter_position]
  by_cases h : p.unlimited_capital = false ∧ p.current_capital < q * pr
  · rw [if_pos h]
  · rw [if_neg h]

lemma enter_position_capital_nonneg (p : Portfolio) (t : String) (q pr : ℚ)
    (d : ℕ) (m : Option String) (hu : p.unlimited_capital = false)
    (h0 : 0 ≤ p.current_capital) :
    0 ≤ (enter_position p t q pr d m).2.current_capital := by
  simp only [enter_position]
  by_cases hc : p.current_capital < q * pr
  · rw [if_pos ⟨hu, hc⟩]
    exact h0
  · rw [if_neg (fun h => hc h.2)]
    simp only [hu, Bool.false_eq_true, if_false]
    linarith [not_lt.mp hc]

lemma enter_position_reject (p : Portfolio) (t : String) (q pr : ℚ)
    (d : ℕ) (m : Option String) (hu : p.unlimited_capital = false)
    (hc : p.current_capital < q * pr) :
    enter_position p t q pr d m = (false, p) := by
  simp only [enter_position]
  rw [if_pos ⟨hu, hc⟩]

lemma runEnters_invariant (calls : List EnterCall) (p : Portfolio)
    (hu : p.unlimited_capital = false) (h0 : 0 ≤ p.current_capital) :
    (runEnters p calls).unlimited_capital = false ∧
      0 ≤ (runEnters p calls).current_capital := by
  induction calls generalizing p with
  | nil => exact ⟨hu, h0⟩
  | cons c cs ih =>
    rw [runEnters_cons]
    exact ih _ (by rw [enter_position_unlimited]; exact hu)
      (enter_position_capital_nonneg _ _ _ _ _ _ hu h0)

/-! ## Claim theorems -/

/-- Claim C2: with unlimited-capital mode off, across any sequence of
`enter_position` calls with non-negative quantities and prices the
portfolio's `current_capital` never goes negative, and any single call
whose cost `quantity * price` exceeds the current capital returns
`False` and leaves the portfolio (cash, positions and trade log alike)
completely unchanged. -/
theorem enter_position_capital_invariant (p : Portfolio) (calls : List EnterCall)
    (hu : p.unlimited_capital = false) (h0 : 0 ≤ p.current_capital)
    (hnn : ∀ c ∈ calls, 0 ≤ c.quantity ∧ 0 ≤ c.price) :
    0 ≤ (runEnters p calls).current_capital ∧
    ∀ (t : String) (q pr : ℚ) (d : ℕ) (m : Option String),
      (runEnters p calls).current_capital < q * pr →
      enter_position (runEnters p calls) t q pr d m = (false, runEnters p calls) := by
  obtain ⟨hu', h0'⟩ := runEnters_invariant calls p hu h0
  exact ⟨h0', fun t q pr d m hc => enter_position_reject _ t q pr d m hu' hc⟩

/-- Closed instance of `enter_position_capital_invariant`: a starting
capital of 1000 stays non-negative across a sequence of two buys, and a
further call costing more than the remaining cash is rejected without
mutation. -/
theorem enter_position_capital_invariant_witness :
    0 ≤ (runEnters (Portfolio.make 1000 false)
          [⟨"A", 2, 100, 1, none⟩, ⟨"A", 3, 200, 2, none⟩]).current_capital :=
  (enter_position_capital_invariant (Portfolio.make 1000 false)
    [⟨"A", 2, 100, 1, none⟩, ⟨"A", 3, 200, 2, none⟩] rfl
    (by norm_num [Portfolio.make])
    (by intro c hc; fin_cases hc <;> norm_num)).1

/-- Claim C5: every snapshot appended by `update_portfolio_value` has
`cash + positions = total` when unlimited-capital mode is off, and
`cash = 0` with `total` equal to the position market value when it is
on; moreover in unlimited-capital mode `enter_position` never fails,
whatever the cost. -/
theorem snapshot_accounting_identity (p : Portfolio) (date : ℕ)
    (prices : List (String × ℚ)) :
    (update_portfolio_value p date prices).portfolio_values
      = p.portfolio_values ++ [mkSnapshot p date prices] ∧
    (p.unlimited_capital = false →
      (mkSnapshot p date prices).cash + (mkSnapshot p date prices).positions
        = (mkSnapshot p date prices).total) ∧
    (p.unlimited_capital = true →
      (mkSnapshot p date prices).cash = 0 ∧
      (mkSnapshot p date prices).total = (mkSnapshot p date prices).positions) ∧
    (p.unlimited_capital = true →
      ∀ (t : String) (q pr : ℚ) (d : ℕ) (m : Option String),
        (enter_position p t q pr d m).1 = true) := by
  refine ⟨rfl, fun h => ?_, fun h => ?_, fun h t q pr d m => ?_⟩
  · simp [mkSnapshot, h]
  · simp [mkSnapshot, h]
  · unfold enter_position
    rw [if_neg (by simp [h])]

/-- Closed instance of `snapshot_accounting_identity` on a concrete
unlimited-capital portfolio holding one position. -/
theorem snapshot_accounting_identity_witness :
    (mkSnapshot ⟨0, 0, true, [("A", 3)], [], []⟩ 7 [("A", 50)]).cash = 0 ∧
    (mkSnapshot ⟨0, 0, true, [("A", 3)], [], []⟩ 7 [("A", 50)]).total
      = (mkSnapshot ⟨0, 0, true, [("A", 3)], [], []⟩ 7 [("A", 50)]).positions :=
  (snapshot_accounting_identity ⟨0, 0, true, [("A", 3)], [], []⟩ 7 [("A", 50)]).2.2.1 rfl

/-- Claim C9: with non-negative configuration, `calculate_position_size`
returns the fixed per-trade amount whenever unlimited-capital mode is
on; otherwise `min(capital * percentage, capital)` under
percentage-based sizing and `min(position_size, capital)` under flat
sizing; it is never negative, and it is 0 at zero capital in
non-unlimited mode. -/
theorem position_size_policy (s : EarningsSentimentStrategy)
    (hcap : 0 ≤ s.current_capital) (hps : 0 ≤ s.position_size)
    (hpa : ∀ pct, s.percentage_allocation = some pct → 0 ≤ pct) :
    (s.unlimited_capital = true → calculate_position_size s = s.position_size) ∧
    (s.unlimited_capital = false →
      (∀ pct, s.percentage_allocation = some pct →
        calculate_position_size s = min (s.current_capital * pct) s.current_capital) ∧
      (s.percentage_allocation = none →
        calculate_position_size s = min s.position_size s.current_capital)) ∧
    0 ≤ calculate_position_size s ∧
    (s.unlimited_capital = false → s.current_capital = 0 →
      calculate_position_size s = 0) := by
  unfold calculate_position_size
  refine ⟨fun h => by simp [h], fun h => ⟨fun pct hpct => by simp [h, hpct],
    fun hnone => by simp [h, hnone]⟩, ?_, fun h hz => ?_⟩
  · by_cases h : s.unlimited_capital
    · simpa [h] using hps
    · simp only [h, if_false]
      cases hpa1 : s.percentage_allocation with
      | none => simp only [hpa1]; exact le_min hps hcap
      | some pct =>
        simp only [hpa1]
        exact le_min (mul_nonneg hcap (hpa pct hpa1)) hcap
  · cases hpa1 : s.percentage_allocation with
    | none => simp [h, hpa1, hz, min_eq_right hps]
    | some pct => simp [h, hpa1, hz]

/-- Closed instance of `position_size_policy`: a strategy with 10%
allocation and capital 2000 sizes the trade at
`min(2000 * 0.10, 2000)`. -/
theorem position_size_policy_witness :
    calculate_position_size ⟨10000, some (1/10), false, 2000, 2000⟩
      = min ((2000 : ℚ) * (1/10)) 2000 :=
  ((position_size_policy ⟨10000, some (1/10), false, 2000, 2000⟩
      (by norm_num) (by norm_num)
      (fun pct hpct => by injection hpct with h; rw [← h]; norm_num)).2.1
    rfl).1 (1/10) rfl

/-- Claim C3: the engine's reported total return follows the documented
policy — `final / initial_capital - 1` with unlimited-capital mode off,
and with it on, `final / total_investment - 1` where the investment is
the summed cost basis `Σ |quantity| * entry_price` of entry trades when
that sum is positive, else `0`. -/
theorem total_return_policy :
    (∀ (strat : EarningsSentimentStrategy) (ic : ℚ) (pd : List (ℕ × ℚ))
        (tk : String) (sd : List (ℕ × String)) (res : BacktestResults),
      runEngine strat ic pd tk sd = .ok res →
      res.total_return = computeTotalReturn strat.unlimited_capital
        res.trades res.initial_capital res.final_capital) ∧
    (∀ (trades : List Trade) (ic ft : ℚ),
      computeTotalReturn false trades ic ft = ft / ic - 1) ∧
    (∀ (trades : List Trade) (ic ft : ℚ), 0 < totalInvestment trades →
      computeTotalReturn true trades ic ft = ft / totalInvestment trades - 1) ∧
    (∀ (trades : List Trade) (ic ft : ℚ), ¬0 < totalInvestment trades →
      computeTotalReturn true trades ic ft = 0) := by
  refine ⟨fun strat ic pd tk sd res h => ?_,
    fun trades ic ft => rfl,
    fun trades ic ft hp => by simp [computeTotalReturn, hp],
    fun trades ic ft hp => by simp [computeTotalReturn, hp]⟩
  unfold runEngine at h
  simp only [] at h
  cases hloop : runLoop pd tk sd
      ⟨Portfolio.make ic strat.unlimited_capital, strat⟩
      (sortByDate (generate_signals sd)) with
  | error e => rw [hloop] at h; exact absurd h (by simp)
  | ok st =>
    rw [hloop] at h
    simp only [] at h
    by_cases hh : get_portfolio_history st.portfolio = []
    · rw [if_pos hh] at h
      exact absurd h (by simp)
    · rw [if_neg hh] at h
      cases h
      rfl

/-- Closed instance of `total_return_policy`: with no trades the
unlimited-mode investment sum is zero, so the reported total return is
`0`. -/
theorem total_return_policy_witness :
    computeTotalReturn true [] 100000 90000 = 0 :=
  total_return_policy.2.2.2 [] 100000 90000 (by norm_num [totalInvestment])

/-- Claim C10: an empty signal series makes the loop body never run, so
no snapshot exists, `get_portfolio_history` is the empty frame, and the
metrics stage aborts the run with a `KeyError` (the `'total'` column of
an empty frame) instead of returning a report. -/
theorem empty_signals_no_report (strat : EarningsSentimentStrategy) (ic : ℚ)
    (pd : List (ℕ × ℚ)) (tk : String) :
    runEngine strat ic pd tk [] = .error .emptyHistory ∧
    runLoop pd tk [] ⟨Portfolio.make ic strat.unlimited_capital, strat⟩
      (sortByDate (generate_signals [])) =
      .ok ⟨Portfolio.make ic strat.unlimited_capital, strat⟩ ∧
    get_portfolio_history (Portfolio.make ic strat.unlimited_capital) = [] :=
  ⟨rfl, rfl, rfl⟩

/-- Claim C1 failing input: a non-buy signal row (date 5, label
`"neutral"`) whose date is absent from the price series makes the run
abort with the pandas `KeyError` raised by
`price_data.loc[date, 'Close']` inside `update_portfolio_value`'s
argument — the engine only guards buy signals against missing price
dates, so the run does not continue past such a date. -/
theorem sentiment_run_aborts_on_nonbuy_missing_price :
    runEngine ⟨10000, some (1/10), false, 100000, 100000⟩ 100000
      [(1, 100)] "TICK" [(5, "neutral")] = .error (.priceKeyError 5) := rfl

/-- Claim C4 failing input: on a constant (zero-variance excess) return
series `calculate_sharpe_ratio` divides by the zero sample standard
deviation: with zero mean excess the float result is NaN, and with
positive mean excess it is `+inf` — not a deterministic neutral defined
value. -/
theorem sharpe_zero_variance_not_neutral :
    calculate_sharpe_ratioFR [1/12600, 1/12600] (1/50) 252 = .nan ∧
    calculate_sharpe_ratioFR [1/100, 1/100] (1/50) 252 = .posInf := by
  constructor
  · norm_num [calculate_sharpe_ratioFR, excessReturns, seriesVar, seriesMean]
    simp
  · norm_num [calculate_sharpe_ratioFR, excessReturns, seriesVar, seriesMean]
    simp

lemma zipWith_pct_replicate (c : ℚ) (n : ℕ) :
    List.zipWith (fun prev cur => (cur - prev) / prev)
      (c :: List.replicate n c) (List.replicate n c) = List.replicate n 0 := by
  induction n with
  | zero => rfl
  | succ n ih =>
    rw [List.replicate_succ]
    rw [List.zipWith_cons_cons, ih]
    simp [List.replicate_succ]

/-- Claim C8: `calculate_returns` is the period-over-period percentage
change with first element 0; a constant price series therefore yields
all-zero returns; and composing `calculate_cumulative_returns` with
`calculate_returns` on the price series `[100, 110, 121]` yields exactly
`[0, 0.10, 0.21]`. -/
theorem returns_pct_change_and_cumulative :
    (∀ (p : ℚ) (ps : List ℚ),
      calculate_returns (p :: ps)
        = 0 :: List.zipWith (fun prev cur => (cur - prev) / prev) (p :: ps) ps) ∧
    (∀ (c : ℚ) (n : ℕ),
      calculate_returns (List.replicate (n + 1) c) = List.replicate (n + 1) 0) ∧
    calculate_cumulative_returns (calculate_returns [100, 110, 121])
      = [0, 1/10, 21/100] := by
  refine ⟨fun p ps => rfl, fun c n => ?_, ?_⟩
  · rw [List.replicate_succ]
    simp only [calculate_returns]
    rw [zipWith_pct_replicate]
    simp [List.replicate_succ]
  · norm_num [calculate_returns, calculate_cumulative_returns, cumprod, cumprodAux]

/-- Claim C6: `calculate_sortino_ratio` returns `0.0` on the empty
series; on a non-empty series with no negative excess return it returns
`+inf` when the mean excess is positive and `0.0` otherwise; and when at
least two negative excess returns of non-zero variance exist its result
is the annualised ratio whose denominator is the standard deviation of
only the negative excess returns. -/
theorem sortino_policy (returns : List ℚ) (rf ppy : ℚ) :
    (returns = [] → calculate_sortino_ratioFR returns rf ppy = .val 0) ∧
    (returns ≠ [] →
      (excessReturns returns rf ppy).filter (fun x => x < 0) = [] →
      calculate_sortino_ratioFR returns rf ppy =
        if 0 < seriesMean (excessReturns returns rf ppy) then .posInf else .val 0) ∧
    (2 ≤ ((excessReturns returns rf ppy).filter (fun x => x < 0)).length →
      seriesVar ((excessReturns returns rf ppy).filter (fun x => x < 0)) ≠ 0 →
      calculate_sortino_ratioFR returns rf ppy =
        .ann ppy (seriesMean (excessReturns returns rf ppy))
          (seriesVar ((excessReturns returns rf ppy).filter (fun x => x < 0)))) := by
  refine ⟨fun h => by simp [calculate_sortino_ratioFR, h],
    fun hne hdown => ?_, fun hlen hvar => ?_⟩
  · simp only [calculate_sortino_ratioFR, if_neg hne, hdown, if_pos rfl, if_true, eq_self_iff_true]
  · have hne : returns ≠ [] := by
      intro h
      subst h
      simp [excessReturns] at hlen
    have hdne : (excessReturns returns rf ppy).filter (fun x => x < 0) ≠ [] := by
      intro h
      rw [h] at hlen
      simp at hlen
    simp only [calculate_sortino_ratioFR, if_neg hne, if_neg hdne,
      if_neg (not_lt.mpr hlen), if_neg hvar]

/-- Closed instance of `sortino_policy`: the series
`[-1/10, -1/5, 3/10]` has two distinct negative excess returns, and the
result's denominator variance is that of the two downside points
alone. -/
theorem sortino_policy_witness :
    calculate_sortino_ratioFR [-1/10, -1/5, 3/10] (1/50) 252 =
      .ann 252 (seriesMean (excessReturns [-1/10, -1/5, 3/10] (1/50) 252))
        (seriesVar ((excessReturns [-1/10, -1/5, 3/10] (1/50) 252).filter
          (fun x => x < 0))) :=
  (sortino_policy [-1/10, -1/5, 3/10] (1/50) 252).2.2
    (by norm_num [excessReturns, List.filter])
    (by norm_num [excessReturns, List.filter, seriesVar, seriesMean])

lemma foldl_min_le_init (l : List ℚ) : ∀ a : ℚ, l.foldl min a ≤ a := by
  induction l with
  | nil => intro a; exact le_refl a
  | cons x xs ih => intro a; exact le_trans (ih (min a x)) (min_le_left a x)

lemma foldl_min_le_mem (l : List ℚ) : ∀ (a x : ℚ), x ∈ l → l.foldl min a ≤ x := by
  induction l with
  | nil => intro a x hx; exact absurd hx (List.not_mem_nil x)
  | cons y ys ih =>
    intro a x hx
    rcases List.mem_cons.mp hx with h | h
    · subst h
      exact le_trans (foldl_min_le_init ys (min a x)) (min_le_right a x)
    · exact ih (min a y) x h

lemma le_foldl_min (l : List ℚ) : ∀ (a b : ℚ), b ≤ a → (∀ x ∈ l, b ≤ x) →
    b ≤ l.foldl min a := by
  induction l with
  | nil => intro a b hba _; exact hba
  | cons y ys ih =>
    intro a b hba h
    exact ih (min a y) b (le_min hba (h y (List.mem_cons_self y ys)))
      (fun x hx => h x (List.mem_cons_of_mem y hx))

lemma cumprodAux_pos (l : List ℚ) : ∀ (acc : ℚ), 0 < acc → (∀ x ∈ l, 0 < x) →
    ∀ y ∈ cumprodAux acc l, 0 < y := by
  induction l with
  | nil => intro acc _ _ y hy; exact absurd hy (List.not_mem_nil y)
  | cons x xs ih =>
    intro acc hacc hl y hy
    have hx : 0 < x := hl x (List.mem_cons_self x xs)
    rcases List.mem_cons.mp hy with h | h
    · subst h; exact mul_pos hacc hx
    · exact ih (acc * x) (mul_pos hacc hx)
        (fun z hz => hl z (List.mem_cons_of_mem x hz)) y h

lemma cumprodAux_length (l : List ℚ) : ∀ acc : ℚ,
    (cumprodAux acc l).length = l.length := by
  induction l with
  | nil => intro acc; rfl
  | cons x xs ih =>
    intro acc
    simp only [cumprodAux, List.length_cons, ih]

lemma ddInterval (l : List ℚ) : ∀ (m : ℚ), 0 < m → (∀ x ∈ l, 0 < x) →
    ∀ d ∈ List.zipWith (fun c r => c / r - 1) l (runningMaxAux m l),
      -1 < d ∧ d ≤ 0 := by
  induction l with
  | nil => intro m _ _ d hd; simp [runningMaxAux] at hd
  | cons x xs ih =>
    intro m hm hl d hd
    simp only [runningMaxAux, List.zipWith_cons_cons] at hd
    have hx : 0 < x := hl x (List.mem_cons_self x xs)
    have hmax : 0 < max m x := lt_of_lt_of_le hm (le_max_left m x)
    rcases List.mem_cons.mp hd with h | h
    · subst h
      constructor
      · have := div_pos hx hmax
        linarith
      · have := (div_le_one hmax).mpr (le_max_right m x)
        linarith
    · exact ih (max m x) hmax (fun z hz => hl z (List.mem_cons_of_mem x hz)) d h

lemma ddZeroIff (l : List ℚ) : ∀ (m : ℚ), 0 < m → (∀ x ∈ l, 0 < x) →
    ((∀ d ∈ List.zipWith (fun c r => c / r - 1) l (runningMaxAux m l), d = 0)
      ↔ List.Chain' (fun a b => a ≤ b) (m :: l)) := by
  induction l with
  | nil => intro m _ _; simp [runningMaxAux]
  | cons x xs ih =>
    intro m hm hl
    have hx : 0 < x := hl x (List.mem_cons_self x xs)
    have hmax : 0 < max m x := lt_of_lt_of_le hm (le_max_left m x)
    simp only [runningMaxAux, List.zipWith_cons_cons, List.forall_mem_cons]
    rw [List.chain'_cons]
    by_cases hmx : m ≤ x
    · rw [max_eq_right hmx]
      have hhead : x / x - 1 = 0 := by rw [div_self (ne_of_gt hx)]; ring
      have htail := ih x hx (fun z hz => hl z (List.mem_cons_of_mem x hz))
      constructor
      · rintro ⟨_, ht⟩
        exact ⟨hmx, htail.mp ht⟩
      · rintro ⟨_, hc⟩
        exact ⟨hhead, htail.mpr hc⟩
    · have hxm : x < m := not_le.mp hmx
      rw [max_eq_left (le_of_lt hxm)]
      constructor
      · rintro ⟨hhead, _⟩
        exfalso
        have h1 : x / m < 1 := (div_lt_one hm).mpr hxm
        have h2 : x / m - 1 < 0 := by linarith
        exact absurd hhead (ne_of_lt h2)
      · rintro ⟨hmx', _⟩
        exact absurd hmx' hmx

lemma drawdown_main (c0 : ℚ) (cs : List ℚ) (h0 : 0 < c0) (hcs : ∀ x ∈ cs, 0 < x) :
    (-1 ≤ listMin (List.zipWith (fun c m => c / m - 1) (c0 :: cs)
        (runningMax (c0 :: cs))) ∧
      listMin (List.zipWith (fun c m => c / m - 1) (c0 :: cs)
        (runningMax (c0 :: cs))) ≤ 0) ∧
    (listMin (List.zipWith (fun c m => c / m - 1) (c0 :: cs)
        (runningMax (c0 :: cs))) = 0 ↔
      List.Chain' (fun a b => a ≤ b) (c0 :: cs)) := by
  have hhead : c0 / c0 - 1 = 0 := by rw [div_self (ne_of_gt h0)]; ring
  simp only [runningMax, List.zipWith_cons_cons, listMin]
  rw [hhead]
  have hint := ddInterval cs c0 h0 hcs
  have h1 : (List.zipWith (fun c m => c / m - 1) cs (runningMaxAux c0 cs)).foldl
      min 0 ≤ 0 := foldl_min_le_init _ 0
  have h2 : -1 ≤ (List.zipWith (fun c m => c / m - 1) cs
      (runningMaxAux c0 cs)).foldl min 0 :=
    le_foldl_min _ 0 (-1) (by norm_num) (fun x hx => le_of_lt (hint x hx).1)
  refine ⟨⟨h2, h1⟩, ?_, ?_⟩
  · intro hz
    rw [← ddZeroIff cs c0 h0 hcs]
    intro d hd
    have hle := foldl_min_le_mem _ 0 d hd
    rw [hz] at hle
    exact le_antisymm (hint d hd).2 hle
  · intro hchain
    have hall := (ddZeroIff cs c0 h0 hcs).mpr hchain
    exact le_antisymm h1
      (le_foldl_min _ 0 0 (le_refl 0) (fun x hx => le_of_eq (hall x hx).symm))

lemma chain'_map_sub_one (l : List ℚ) :
    List.Chain' (fun a b => a ≤ b) (l.map (fun c => c - 1)) ↔
      List.Chain' (fun a b => a ≤ b) l := by
  rw [List.chain'_map]
  constructor
  · intro h
    exact h.imp (fun a b hab => by linarith)
  · intro h
    exact h.imp (fun a b hab => sub_le_sub_right hab 1)

/-- Claim C7: `calculate_max_drawdown` is `0` on the empty series and
never negative; on every non-empty series of returns all above `-1`
(the returns of a positive-price series) the result lies in `[0, 1]`
and is `0` exactly when the cumulative-return curve is
non-decreasing. -/
theorem max_drawdown_bounds_and_flatness (returns : List ℚ) :
    (returns = [] → calculate_max_drawdown returns = 0) ∧
    0 ≤ calculate_max_drawdown returns ∧
    (returns ≠ [] → (∀ r ∈ returns, -1 < r) →
      calculate_max_drawdown returns ≤ 1 ∧
      (calculate_max_drawdown returns = 0 ↔
        List.Chain' (fun a b => a ≤ b) (calculate_cumulative_returns returns))) := by
  refine ⟨fun h => by simp [calculate_max_drawdown, h], ?_, fun hne hpos => ?_⟩
  · unfold calculate_max_drawdown
    by_cases h : returns = []
    · rw [if_pos h]
    · rw [if_neg h]
      exact abs_nonneg _
  · have hL : ∀ x ∈ returns.map (fun r => 1 + r), 0 < x := by
      intro x hx
      rcases List.mem_map.mp hx with ⟨r, hr, rfl⟩
      have := hpos r hr
      linarith
    have hcp : ∀ y ∈ cumprod (returns.map (fun r => 1 + r)), 0 < y :=
      cumprodAux_pos _ 1 one_pos hL
    have hlen : (cumprod (returns.map (fun r => 1 + r))).length = returns.length := by
      rw [cumprod, cumprodAux_length, List.length_map]
    have hnnil : cumprod (returns.map (fun r => 1 + r)) ≠ [] := by
      intro h
      rw [h] at hlen
      simp at hlen
      exact hne (List.eq_nil_of_length_eq_zero hlen.symm)
    obtain ⟨c0, cs, hceq⟩ := List.exists_cons_of_ne_nil hnnil
    have h0 : 0 < c0 := hcp c0 (by rw [hceq]; exact List.mem_cons_self c0 cs)
    have hcs : ∀ x ∈ cs, 0 < x :=
      fun x hx => hcp x (by rw [hceq]; exact List.mem_cons_of_mem c0 hx)
    obtain ⟨hb, hiff⟩ := drawdown_main c0 cs h0 hcs
    have key : calculate_max_drawdown returns
        = |listMin (List.zipWith (fun c m => c / m - 1) (c0 :: cs)
            (runningMax (c0 :: cs)))| := by
      unfold calculate_max_drawdown
      rw [if_neg hne, hceq]
    constructor
    · rw [key, abs_of_nonpos hb.2]
      linarith [hb.1]
    · rw [key, abs_eq_zero, hiff]
      rw [show calculate_cumulative_returns returns
        = (cumprod (returns.map (fun r => 1 + r))).map (fun c => c - 1) from rfl]
      rw [hceq]
      exact (chain'_map_sub_one (c0 :: cs)).symm

/-- Closed instance of `max_drawdown_bounds_and_flatness` on the return
series `[1/10, -1/20]`: the drawdown is at most 1 and vanishes exactly
when the cumulative curve never falls. -/
theorem max_drawdown_bounds_witness :
    calculate_max_drawdown [1/10, -1/20] ≤ 1 ∧
    (calculate_max_drawdown [1/10, -1/20] = 0 ↔
      List.Chain' (fun a b => a ≤ b) (calculate_cumulative_returns [1/10, -1/20])) :=
  (max_drawdown_bounds_and_flatness [1/10, -1/20]).2.2 (by simp)
    (by intro r hr; fin_cases hr <;> norm_num)
